import Mathlib

/-!
# Verification of the TaskCache synchronization engine

Shallow embedding of the TaskCache PWA's sync engine, local task store,
filter/search projection and Notion push-back, translated from:

* `lib/indexeddb.ts` (`IndexedDbManager`, `Task`, `AppSettings`)
* `hooks/use-task-sync.ts` (`useTaskSync`: `fetchTasks`, `mergeTasks`,
  `getSyncErrorMessage`, `sync`)
* `hooks/use-task-filters.ts` (`useTaskFilters`)
* `lib/api-clients.ts` (`NotionAPIClient.fetchTasks`)

JavaScript `Date` values are modelled as `Int` epoch milliseconds, the
IndexedDB object store `tasks` as a `List Task` whose `put` operation
replaces the record with the same `id` in place (appending when no record
with that id exists), and JS string operations over the `List Char`
contents of Lean strings.
-/

namespace TaskCache

/-- `Task.source` tag: `'notion' | 'google-tasks'`. -/
inductive TaskSource where
  | notion
  | googleTasks
deriving DecidableEq

/-- The `Task` interface of `lib/indexeddb.ts`.  Optional (`?`) fields are
`Option`; `Date` fields are epoch milliseconds (`Int`). -/
structure Task where
  id : String
  title : String
  description : Option String
  completed : Bool
  stocked : Bool
  read : Bool
  createdAt : Int
  updatedAt : Int
  source : TaskSource
  sourceId : String
  tags : Option (List String)
  author : Option String
  imageUrl : Option String
  url : Option String
  iconUrl : Option String
  notionPageUrl : Option String
  ogpImageUrl : Option String
  syncedWithNotion : Bool
deriving DecidableEq

/-- The `AppSettings` interface of `lib/indexeddb.ts`. -/
structure AppSettings where
  backendType : Option TaskSource
  notionApiKey : Option String
  notionDatabaseId : Option String
  googleTasksCredentials : Option String
  proxyServerUrl : Option String
  lastSyncAt : Option Int
  lastSyncCursor : Option String
  newestTaskCreatedAt : Option Int
  oldestTaskCreatedAt : Option Int
deriving DecidableEq

/-- `FetchTasksResult` of `lib/api-clients.ts`. -/
structure FetchTasksResult where
  tasks : List Task
  hasMore : Bool
  nextCursor : Option String
deriving DecidableEq

/-- JS truthiness of an optional string (`undefined` and `''` are falsy). -/
def jsTruthy : Option String → Bool
  | none => false
  | some s => !(s = "")

/-! ## Local Task Store (`IndexedDbManager`, `lib/indexeddb.ts`)

The `tasks` object store is keyed by `id`.  `store.put` overwrites the
record with the same key or creates it; `store.add` fails on an existing
key.  `getAll` enumerates the records. -/

/-- `IDBObjectStore.get` on the `tasks` store (`getTaskById`). -/
def findById : List Task → String → Option Task
  | [], _ => none
  | t :: rest, i => if t.id = i then some t else findById rest i

/-- Whether a record with the given key exists. -/
def containsId (store : List Task) (i : String) : Bool :=
  (findById store i).isSome

/-- `IDBObjectStore.put` on the `tasks` store: replace the record with the
same `id` in place, or append a fresh record. -/
def putTask (store : List Task) (t : Task) : List Task :=
  if containsId store t.id then
    store.map (fun x => if x.id = t.id then t else x)
  else
    store ++ [t]

/-- The head of `IndexedDbManager.updateTask`:
`if (markAsUnsynced && task.source === 'notion') task.syncedWithNotion = false`. -/
def markIfNotion (markAsUnsynced : Bool) (t : Task) : Task :=
  if markAsUnsynced && t.source == TaskSource.notion then
    { t with syncedWithNotion := false }
  else
    t

/-- `IndexedDbManager.updateTask(task, markAsUnsynced)`: optionally flag a
Notion task unsynced, then `put` it. -/
def idbUpdateTask (store : List Task) (t : Task) (markAsUnsynced : Bool) : List Task :=
  putTask store (markIfNotion markAsUnsynced t)

/-- `IndexedDbManager.mergeAndUpdateTask(existingTask, newTask)`: keep the
prior `read`/`stocked`/`syncedWithNotion`, take everything else from the
incoming task, persist without re-marking unsynced. -/
def mergeAndUpdateTask (store : List Task) (existingTask newTask : Task) : List Task :=
  idbUpdateTask store
    { newTask with
      read := existingTask.read
      stocked := existingTask.stocked
      syncedWithNotion := existingTask.syncedWithNotion }
    false

/-- `IndexedDbManager.addTask(task)`: merge-preserve when the id already
exists, insert fresh (`store.add`, modelled as append) otherwise. -/
def idbAddTask (store : List Task) (t : Task) : List Task :=
  match findById store t.id with
  | some existing => mergeAndUpdateTask store existing t
  | none => store ++ [t]

/-- `IndexedDbManager.getUnsyncedNotionTasks()`: records with
`source === 'notion' && syncedWithNotion === false`. -/
def getUnsyncedNotionTasks (store : List Task) : List Task :=
  store.filter (fun t => t.source == TaskSource.notion && t.syncedWithNotion == false)

/-! ## Sync engine merge (`hooks/use-task-sync.ts`) -/

/-- First task satisfying `t.sourceId = sid`. -/
def findBySourceId : List Task → String → Option Task
  | [], _ => none
  | t :: rest, sid => if t.sourceId = sid then some t else findBySourceId rest sid

/-- `existingTasksMap.get(sourceId)` where the map is built by
`new Map(allExistingTasks.map((task) => [task.sourceId, task]))`:
later entries overwrite earlier ones, so the lookup returns the **last**
stored task with that `sourceId`. -/
def lookupBySourceId (store : List Task) (sid : String) : Option Task :=
  findBySourceId store.reverse sid

/-- The body of the `fetchedTasks.tasks.map` in `mergeTasks`: preserve the
local `read`/`stocked` of an existing task with the same `sourceId`,
otherwise keep the fetched task unchanged. -/
def mergeOne (store : List Task) (fetchedTask : Task) : Task :=
  match lookupBySourceId store fetchedTask.sourceId with
  | some existing =>
    { fetchedTask with read := existing.read, stocked := existing.stocked }
  | none => fetchedTask

/-- The `mergedTasks` list computed by `mergeTasks` (the lookup map is a
snapshot of the store taken before any write). -/
def mergeFetched (store : List Task) (page : List Task) : List Task :=
  page.map (mergeOne store)

/-- The persistence loop of `mergeTasks`:
`for (task of mergedTasks) { try { updateTask(task) } catch { addTask(task) } }`.
`updateTask` uses `markAsUnsynced = true` (its default).  In this model
`put` is total (IndexedDB `put` succeeds for present and absent keys
alike), so the `catch`-`addTask` branch is unreachable. -/
def persistMerged (store : List Task) (mergedTasks : List Task) : List Task :=
  mergedTasks.foldl (fun s t => idbUpdateTask s t true) store

/-- A full `mergeTasks(fetchedTasks)` pass over the store: merge against a
snapshot, then persist every merged task. -/
def syncMergePersist (store : List Task) (page : List Task) : List Task :=
  persistMerged store (mergeFetched store page)

/-! ## Error classification (`getSyncErrorMessage`) -/

/-- JS `String.prototype.includes` over the character lists. -/
def includesAux : List Char → List Char → Bool
  | [], pat => pat.isEmpty
  | s@(_ :: rest), pat => pat.isPrefixOf s || includesAux rest pat

/-- `s.includes(sub)`. -/
def strIncludes (s sub : String) : Bool :=
  includesAux s.data sub.data

/-- The `{errorMessage, errorDetails}` pair returned by
`getSyncErrorMessage`. -/
structure SyncErrorMessage where
  errorMessage : String
  errorDetails : String
deriving DecidableEq

/-- `getSyncErrorMessage(error)`.  `none` models a thrown value that is not
an `Error` instance; `some msg` models `new Error(msg)`. -/
def getSyncErrorMessage (error : Option String) : SyncErrorMessage :=
  match error with
  | none => ⟨"データの同期に失敗しました", ""⟩
  | some msg =>
    if msg = "Request timeout" then
      ⟨"データの同期がタイムアウトしました",
       "ネットワーク接続を確認してください。プロキシサーバーを使用している場合は、設定を確認してください。"⟩
    else if strIncludes msg "401" || strIncludes msg "Unauthorized" then
      ⟨"認証エラーが発生しました",
       "APIキーまたは認証情報が正しくない可能性があります。設定を確認してください。"⟩
    else if strIncludes msg "404" then
      ⟨"リソースが見つかりません",
       "データベースIDまたはタスクリストが正しくない可能性があります。"⟩
    else if strIncludes msg "CORS" || strIncludes msg "fetch" then
      ⟨"ネットワークエラーが発生しました", msg ++ "\n\nCORSエラーの場合は、プロキシサーバーの設定が必要です。"⟩
    else
      ⟨"データの同期に失敗しました", msg⟩

/-! ## Engine state and the `sync` operation -/

/-- `SyncState` of `use-task-sync.ts`. -/
inductive SyncState where
  | idle
  | syncing
  | loadingMore
deriving DecidableEq

/-- The error dialog payload passed to `onError` by `handleSyncError`. -/
structure ErrorDialogState where
  title : String
  message : String
  details : String
deriving DecidableEq

/-- The engine-visible state touched by `sync`: the hook state
(`syncState`, `hasMoreTasks`), the IndexedDB `tasks` store, the persisted
settings, the toast log, and the error dialog. -/
structure EngineState where
  syncState : SyncState
  hasMoreTasks : Bool
  store : List Task
  settings : AppSettings
  toasts : List String
  errorDialog : Option ErrorDialogState
deriving DecidableEq

/-- Environment of one `sync` run: when the remote fetch settles
(`fetchDelay`, in ms) and with what (`fetchOutcome`; `Except.error` models a
rejected promise carrying `Error(msg)`), plus the wall clock used for
`new Date()`. -/
structure SyncEnv where
  fetchDelay : Nat
  fetchOutcome : Except String FetchTasksResult
  now : Int

/-- `Promise.race([fetchPromise, timeoutPromise])` with the 30 000 ms timer
of `fetchTasks`: the fetch wins iff it settles strictly before the timer,
otherwise the race rejects with `Error('Request timeout')`.  (Settling at
exactly 30 000 ms is resolved in favour of the fetch here; every theorem
below uses a strict inequality, so the tie-break is immaterial.) -/
def raceWithTimeout (env : SyncEnv) : Except String FetchTasksResult :=
  if env.fetchDelay ≤ 30000 then env.fetchOutcome else Except.error "Request timeout"

/-- The guard of `getApiClient`: `some toastMessage` when the configuration
is incomplete (the hook toasts and returns `undefined`), `none` when a
client is produced.  Matches the JS truthiness checks on the credential
strings. -/
def getApiClientToast (settings : AppSettings) : Option String :=
  match settings.backendType with
  | some TaskSource.notion =>
    if jsTruthy settings.notionApiKey && jsTruthy settings.notionDatabaseId then none
    else some "Notionの設定が不完全です"
  | _ =>
    if jsTruthy settings.googleTasksCredentials then none
    else some "Google Tasksの設定が不完全です"

/-- `handleSyncError(error)`: classify, open the error dialog (empty details
fall back to `'不明なエラーが発生しました'`), and toast the message. -/
def handleSyncError (error : Option String) (st : EngineState) : EngineState :=
  let c := getSyncErrorMessage error
  { st with
    errorDialog := some
      ⟨c.errorMessage, "エラーの詳細情報:",
        if c.errorDetails = "" then "不明なエラーが発生しました" else c.errorDetails⟩
    toasts := st.toasts ++ [c.errorMessage] }

/-- The `try` body of `sync(loadMore)` (after `syncState` was set):
`fetchTasks`, early return on missing client or an empty page, otherwise
merge, persist, publish, record `hasMore`, toast on refresh, and save the
updated cursor settings. -/
def syncBody (loadMore : Bool) (env : SyncEnv) (st : EngineState) : EngineState :=
  match getApiClientToast st.settings with
  | some msg => { st with toasts := st.toasts ++ [msg] }
  | none =>
    match raceWithTimeout env with
    | Except.error e => handleSyncError (some e) st
    | Except.ok fetchedTasks =>
      if fetchedTasks.tasks.length = 0 then
        let st' :=
          if loadMore then st
          else { st with toasts := st.toasts ++ ["新しいタスクはありませんでした"] }
        { st' with hasMoreTasks := false }
      else
        let mergedTasks := mergeFetched st.store fetchedTasks.tasks
        let store' := persistMerged st.store mergedTasks
        let st2 := { st with store := store', hasMoreTasks := fetchedTasks.hasMore }
        let st3 :=
          if loadMore then st2
          else { st2 with
                 toasts := st2.toasts ++
                   [toString fetchedTasks.tasks.length ++ "件のタスクを同期しました"] }
        { st3 with
          settings := { st3.settings with
                        lastSyncAt := some env.now
                        lastSyncCursor := fetchedTasks.nextCursor } }

/-- `sync(loadMore)`: bail out when no backend is configured, otherwise set
the in-flight state, run the body (errors land in `handleSyncError`), and
return to `'idle'` in the `finally` block regardless of outcome. -/
def syncRun (loadMore : Bool) (env : SyncEnv) (st : EngineState) : EngineState :=
  match st.settings.backendType with
  | none => { st with toasts := st.toasts ++ ["バックエンドサービスが設定されていません"] }
  | some _ =>
    let st1 := { st with syncState := if loadMore then SyncState.loadingMore else SyncState.syncing }
    let st2 := syncBody loadMore env st1
    { st2 with syncState := SyncState.idle }

/-! ## Push-back to Notion (`IndexedDbManager.syncTasksWithNotion`) -/

/-- Result of `syncTasksWithNotion`: the store after the loop plus the
`{success, failed}` counters. -/
structure PushBackResult where
  store : List Task
  success : Nat
  failed : Nat
deriving DecidableEq

/-- The `for (const task of unsyncedTasks)` loop: `updateOk` tells whether
the remote `notionClient.updateTask(task)` call succeeds (`false` models a
throw).  On success the task is flagged `syncedWithNotion = true` and
persisted with `updateTask(task, false)`; on failure only the `failed`
counter moves and the loop continues. -/
def pushLoop (updateOk : Task → Bool) : List Task → List Task → PushBackResult
  | store, [] => ⟨store, 0, 0⟩
  | store, t :: rest =>
    if updateOk t then
      let r := pushLoop updateOk (idbUpdateTask store { t with syncedWithNotion := true } false) rest
      ⟨r.store, r.success + 1, r.failed⟩
    else
      let r := pushLoop updateOk store rest
      ⟨r.store, r.success, r.failed + 1⟩

/-- `IndexedDbManager.syncTasksWithNotion()`: collect the unsynced Notion
tasks, bail out with `{success: 0, failed: 0}` when the Notion credentials
are not configured or there is nothing to push, otherwise run the
sequential loop. -/
def syncTasksWithNotion (store : List Task) (settings : AppSettings)
    (updateOk : Task → Bool) : PushBackResult :=
  let unsyncedTasks := getUnsyncedNotionTasks store
  if !(jsTruthy settings.notionApiKey && jsTruthy settings.notionDatabaseId)
      || unsyncedTasks.length = 0 then
    ⟨store, 0, 0⟩
  else
    pushLoop updateOk store unsyncedTasks

/-! ## Filter/search projection (`hooks/use-task-filters.ts`) -/

/-- The `'all' | 'read' | 'stocked' | 'unread'` filter type. -/
inductive FilterType where
  | all
  | read
  | stocked
  | unread
deriving DecidableEq

/-- `removeDuplicateTasks`: keep the first occurrence of each `id`
(`seen` is the set of ids already kept). -/
def removeDupAux : List String → List Task → List Task
  | _, [] => []
  | seen, t :: rest =>
    if seen.contains t.id then removeDupAux seen rest
    else t :: removeDupAux (t.id :: seen) rest

/-- `removeDuplicateTasks(tasks)`. -/
def removeDuplicateTasks (tasks : List Task) : List Task :=
  removeDupAux [] tasks

/-- JS `toLowerCase()` (ASCII case mapping suffices for the data involved). -/
def lowerStr (s : String) : String :=
  String.mk (s.data.map Char.toLower)

/-- Truthiness of `searchQuery.trim()`: the query has some non-whitespace
character. -/
def hasSearchText (searchQuery : String) : Bool :=
  searchQuery.data.any (fun c => !c.isWhitespace)

/-- The search predicate of `useTaskFilters` with `query` already
lowercased: case-insensitive substring match on `title`, `description`,
`author` (missing optional fields never match). -/
def matchesSearch (query : String) (t : Task) : Bool :=
  strIncludes (lowerStr t.title) query
    || (match t.description with
        | some d => strIncludes (lowerStr d) query
        | none => false)
    || (match t.author with
        | some a => strIncludes (lowerStr a) query
        | none => false)

/-- The `switch (filter)` status filter. -/
def applyStatusFilter (filter : FilterType) (tasks : List Task) : List Task :=
  match filter with
  | FilterType.read => tasks.filter (fun t => t.read)
  | FilterType.unread => tasks.filter (fun t => !t.read)
  | FilterType.stocked => tasks.filter (fun t => t.stocked)
  | FilterType.all => tasks

/-- The comparator `(a, b) => b.createdAt - a.createdAt` as an order:
`a` precedes `b` iff `b.createdAt ≤ a.createdAt` (descending). -/
def recencyOrder (a b : Task) : Prop :=
  b.createdAt ≤ a.createdAt

instance : DecidableRel recencyOrder := fun a b =>
  inferInstanceAs (Decidable (b.createdAt ≤ a.createdAt))

instance : IsTotal Task recencyOrder :=
  ⟨fun a b => (le_total b.createdAt a.createdAt).imp id id⟩

instance : IsTrans Task recencyOrder :=
  ⟨fun _ _ _ hab hbc => le_trans hbc hab⟩

/-- `filtered.sort((a, b) => b.createdAt - a.createdAt)`, modelled as a
stable sort by descending `createdAt`. -/
def sortByCreatedAtDesc (tasks : List Task) : List Task :=
  List.insertionSort recencyOrder tasks

/-- The `filteredTasks` memo of `useTaskFilters`: de-duplicate by `id`,
apply the search filter when the query is non-blank, apply the status
filter, sort by `createdAt` descending. -/
def filteredTasks (tasks : List Task) (searchQuery : String) (filter : FilterType) : List Task :=
  let uniqueTasks := removeDuplicateTasks tasks
  let afterSearch :=
    if hasSearchText searchQuery then
      uniqueTasks.filter (matchesSearch (lowerStr searchQuery))
    else uniqueTasks
  sortByCreatedAtDesc (applyStatusFilter filter afterSearch)

/-! ## `NotionAPIClient.fetchTasks` (`lib/api-clients.ts`) -/

/-- The fields of a Notion page read by `mapNotionPageToTask`, plus the OGP
lookup result the environment would supply for the page's URL
(`fetchOGPData` itself returns `{}` on any of its own failures, so an
arbitrary `OgpData` covers it). -/
structure OgpData where
  title : Option String
  description : Option String
  image : Option String
deriving DecidableEq

/-- A Notion API page as consumed by `mapNotionPageToTask`:
`properties.名前.title[0].text.content`, `properties.テキスト.rich_text[0]
.text.content`, `properties.URL.url`, the two checkboxes, `created_time`,
`last_edited_time`, `created_by.name`, `properties.タグ.multi_select` and
the page `url`, each `Option` where optional chaining can yield
`undefined`. -/
structure NotionPage where
  id : String
  titleContent : Option String
  textContent : Option String
  urlProp : Option String
  stockCheckbox : Option Bool
  readCheckbox : Option Bool
  createdTime : Int
  lastEditedTime : Int
  createdByName : Option String
  tagNames : Option (List String)
  pageUrl : String
  ogp : OgpData
deriving DecidableEq

/-- JS `a || b` for optional strings (empty string is falsy). -/
def jsOrStr (a : Option String) (b : String) : String :=
  match a with
  | some s => if s = "" then b else s
  | none => b

/-- `mapNotionPageToTask(page)` of `lib/api-clients.ts`.  OGP data is only
consulted when the page has a `URL` property, as in the source; the
checkbox values default to `false` where the source leaves `undefined` in a
boolean field; `syncedWithNotion` is likewise absent in this variant
(`undefined`, falsy). -/
def mapNotionPageToTask (page : NotionPage) : Task :=
  let ogpData : OgpData := if page.urlProp.isSome then page.ogp else ⟨none, none, none⟩
  { id := page.id
    sourceId := page.id
    title := jsOrStr page.titleContent (jsOrStr ogpData.title "Untitled")
    description := some (jsOrStr page.textContent (jsOrStr ogpData.description ""))
    completed := false
    stocked := (page.stockCheckbox).getD false
    read := (page.readCheckbox).getD false
    createdAt := page.createdTime
    updatedAt := page.lastEditedTime
    source := TaskSource.notion
    author := some (jsOrStr page.createdByName "Unknown")
    tags := some ((page.tagNames).getD [])
    url := page.urlProp
    imageUrl := none
    iconUrl := none
    notionPageUrl := some page.pageUrl
    ogpImageUrl := ogpData.image
    syncedWithNotion := false }

/-- How the page query settles for `NotionAPIClient.fetchTasks`:
a non-OK HTTP response, a rejected `fetch` (network/CORS), or an OK
response body. -/
inductive NotionFetchOutcome where
  | httpError (status : Nat)
  | networkError (msg : String)
  | ok (results : List NotionPage) (hasMore : Bool) (nextCursor : Option String)

/-- The `try` body of `NotionAPIClient.fetchTasks`: throw
`'Notion API error: <status>'` on a non-OK response, propagate fetch
rejections, otherwise map the pages.  (`data.next_cursor || undefined`
turns an empty cursor into `undefined`.) -/
def notionFetchTasksBody : NotionFetchOutcome → Except String FetchTasksResult
  | NotionFetchOutcome.httpError status =>
    Except.error ("Notion API error: " ++ toString status)
  | NotionFetchOutcome.networkError msg => Except.error msg
  | NotionFetchOutcome.ok results hasMore nextCursor =>
    Except.ok
      { tasks := results.map mapNotionPageToTask
        hasMore := hasMore
        nextCursor := match nextCursor with
          | some c => if c = "" then none else some c
          | none => none }

/-- `NotionAPIClient.fetchTasks` with its enclosing `catch`: any error from
the body is swallowed and `{tasks: [], hasMore: false}` is returned. -/
def notionFetchTasks (outcome : NotionFetchOutcome) : FetchTasksResult :=
  match notionFetchTasksBody outcome with
  | Except.ok r => r
  | Except.error _ => { tasks := [], hasMore := false, nextCursor := none }

/-! ## Date-range sync position (spec §4.1), modelled from the spec

The repository's `AppSettings` declares `newestTaskCreatedAt` /
`oldestTaskCreatedAt` (`lib/indexeddb.ts`) and the settings menu resets
them, but no code under `src/` implements the date-range sync algorithm
that maintains them; the shipped `sync` uses the `lastSyncAt` /
`lastSyncCursor` model instead. -/

/-- Outcome of a date-range `loadMore`: the reported `hasMore`, the number
of network calls issued to the Remote Source Adapter, and the fetched
items. -/
structure DateRangeLoadMoreOutcome where
  hasMore : Bool
  networkCalls : Nat
  fetched : List Task
deriving DecidableEq

/-- Modelled from the spec: the missing date-range `loadMore` direction of
`sync` (spec §4.1 step 2): "`loadMore`: requires `oldestTaskCreatedAt` to
be set …; fetch items with `createdAt < oldestTaskCreatedAt`.  If unset,
this is a no-op returning 'no more data'." -/
def dateRangeLoadMore (settings : AppSettings)
    (fetchBefore : Int → FetchTasksResult) : DateRangeLoadMoreOutcome :=
  match settings.oldestTaskCreatedAt with
  | none => ⟨false, 0, []⟩
  | some oldest =>
    let r := fetchBefore oldest
    ⟨r.hasMore, 1, r.tasks⟩

/-- `max` folded into an optional current bound. -/
def optMax (current : Option Int) (v : Int) : Int :=
  match current with
  | none => v
  | some c => max c v

/-- `min` folded into an optional current bound. -/
def optMin (current : Option Int) (v : Int) : Int :=
  match current with
  | none => v
  | some c => min c v

/-- Maximum `createdAt` of a non-empty batch (`0` for an empty one, unused). -/
def maxCreatedAt : List Task → Int
  | [] => 0
  | t :: rest => rest.foldl (fun acc x => max acc x.createdAt) t.createdAt

/-- Minimum `createdAt` of a non-empty batch (`0` for an empty one, unused). -/
def minCreatedAt : List Task → Int
  | [] => 0
  | t :: rest => rest.foldl (fun acc x => min acc x.createdAt) t.createdAt

/-- Modelled from the spec: the missing date-range settings update of
`sync` (spec §4.1 step 7): after a sync that fetched at least one item,
"`newestTaskCreatedAt = max(current, max(createdAt of fetched items))`;
`oldestTaskCreatedAt = min(current, min(createdAt of fetched items))`",
then persist.  Persistence is the returned settings value. -/
def updateDateRangeSettings (settings : AppSettings) (fetched : List Task) : AppSettings :=
  if fetched.isEmpty then settings
  else
    { settings with
      newestTaskCreatedAt := some (optMax settings.newestTaskCreatedAt (maxCreatedAt fetched))
      oldestTaskCreatedAt := some (optMin settings.oldestTaskCreatedAt (minCreatedAt fetched)) }

/-! ## Store lemmas -/

/-- The ids stored in (the model of) the `tasks` object store. -/
def taskIds (store : List Task) : List String :=
  store.map Task.id

theorem findById_eq_none_iff (store : List Task) (x : String) :
    findById store x = none ↔ ∀ y ∈ store, y.id ≠ x := by
  induction store with
  | nil => simp [findById]
  | cons a rest ih =>
    by_cases ha : a.id = x
    · simp [findById, ha]
    · simp [findById, ha, ih]

theorem findById_mem_of_nodup (store : List Task) (t : Task)
    (hnd : (taskIds store).Nodup) (hmem : t ∈ store) :
    findById store t.id = some t := by
  induction store with
  | nil => cases hmem
  | cons a rest ih =>
    simp only [taskIds, List.map_cons, List.nodup_cons] at hnd
    rcases List.mem_cons.mp hmem with h | h
    · subst h
      simp [findById]
    · have hne : a.id ≠ t.id := by
        intro heq
        exact hnd.1 (heq ▸ List.mem_map_of_mem Task.id h)
      simp only [findById, if_neg hne]
      exact ih hnd.2 h

theorem mem_of_findById (store : List Task) (x : String) (t : Task)
    (h : findById store x = some t) : t ∈ store ∧ t.id = x := by
  induction store with
  | nil => simp [findById] at h
  | cons a rest ih =>
    by_cases ha : a.id = x
    · simp only [findById, if_pos ha] at h
      cases h
      exact ⟨List.mem_cons_self _ _, ha⟩
    · simp only [findById, if_neg ha] at h
      obtain ⟨hm, hid⟩ := ih h
      exact ⟨List.mem_cons_of_mem _ hm, hid⟩

theorem findById_append (s1 s2 : List Task) (x : String) :
    findById (s1 ++ s2) x = (findById s1 x).or (findById s2 x) := by
  induction s1 with
  | nil => simp [findById]
  | cons a rest ih =>
    by_cases ha : a.id = x
    · simp [findById, ha]
    · simp [findById, ha, ih]

theorem findById_replaceAll (t : Task) (x : String) (store : List Task) :
    findById (store.map (fun y => if y.id = t.id then t else y)) x
      = if x = t.id then (findById store t.id).map (fun _ => t)
        else findById store x := by
  induction store with
  | nil => by_cases hx : x = t.id <;> simp [findById, hx]
  | cons a rest ih =>
    by_cases ha : a.id = t.id
    · by_cases hx : x = t.id
      · subst hx
        simp [findById, ha]
      · have htx : t.id ≠ x := fun h => hx h.symm
        have hax : a.id ≠ x := ha ▸ htx
        simp only [List.map_cons, if_pos ha, findById, if_neg htx, if_neg hax, ih, if_neg hx]
    · by_cases hx : x = t.id
      · subst hx
        simp only [List.map_cons, if_neg ha, findById, if_neg ha, ih, if_pos rfl]
      · by_cases hax : a.id = x
        · simp [findById, ha, hax, hx]
        · simp only [List.map_cons, if_neg ha, findById, if_neg hax, ih, if_neg hx]

theorem findById_putTask (store : List Task) (t : Task) (x : String) :
    findById (putTask store t) x
      = if x = t.id then some t else findById store x := by
  unfold putTask containsId
  cases h : findById store t.id with
  | some e =>
    simp only [h, Option.isSome_some, if_pos]
    rw [findById_replaceAll, h]
    rfl
  | none =>
    simp only [h, Option.isSome_none, Bool.false_eq_true, if_neg, if_false]
    rw [findById_append]
    by_cases hx : x = t.id
    · subst hx
      simp [h, findById]
    · have hne : t.id ≠ x := fun hh => hx hh.symm
      simp [findById, hne, if_neg hx]

theorem taskIds_putTask (store : List Task) (t : Task) :
    taskIds (putTask store t)
      = if containsId store t.id then taskIds store else taskIds store ++ [t.id] := by
  unfold putTask
  by_cases h : containsId store t.id
  · simp only [h, if_pos, taskIds, List.map_map]
    refine congrArg₂ _ (funext fun y => ?_) rfl
    by_cases hy : y.id = t.id <;> simp [Function.comp, hy]
  · simp [h, taskIds]

theorem taskIds_nodup_putTask (store : List Task) (t : Task)
    (hnd : (taskIds store).Nodup) : (taskIds (putTask store t)).Nodup := by
  rw [taskIds_putTask]
  by_cases h : containsId store t.id
  · simpa [h] using hnd
  · have hnone : findById store t.id = none := by
      unfold containsId at h
      cases hfind : findById store t.id with
      | none => rfl
      | some e => rw [hfind] at h; simp at h
    have : t.id ∉ taskIds store := by
      intro hm
      obtain ⟨y, hy, hid⟩ := List.mem_map.mp hm
      exact (findById_eq_none_iff store t.id).mp hnone y hy hid
    simp [h, List.nodup_append, this, hnd]

theorem mem_putTask (store : List Task) (t y : Task)
    (h : y ∈ putTask store t) : y ∈ store ∨ y = t := by
  unfold putTask at h
  by_cases hc : containsId store t.id
  · rw [if_pos hc] at h
    obtain ⟨z, hz, hzy⟩ := List.mem_map.mp h
    by_cases hzid : z.id = t.id
    · right
      rw [if_pos hzid] at hzy
      exact hzy.symm
    · left
      rw [if_neg hzid] at hzy
      exact hzy ▸ hz
  · rw [if_neg hc] at h
    rcases List.mem_append.mp h with h | h
    · exact Or.inl h
    · exact Or.inr (List.mem_singleton.mp h)

theorem replaceAll_eq_self (t : Task) :
    ∀ store : List Task, (taskIds store).Nodup → findById store t.id = some t →
      store.map (fun y => if y.id = t.id then t else y) = store := by
  intro store
  induction store with
  | nil => intro _ h; simp [findById] at h
  | cons a rest ih =>
    intro hnd hfind
    simp only [taskIds, List.map_cons, List.nodup_cons] at hnd
    by_cases ha : a.id = t.id
    · simp only [findById, if_pos ha] at hfind
      have hat : a = t := Option.some.inj hfind
      subst hat
      have htail : rest.map (fun y => if y.id = a.id then a else y) = rest := by
        have h2 : rest.map (fun y => if y.id = a.id then a else y) = rest.map id :=
          List.map_congr_left fun y hy => by
            have hne : y.id ≠ a.id := fun hxy =>
              hnd.1 (hxy ▸ List.mem_map_of_mem Task.id hy)
            simp [hne]
        simpa using h2
      simp [ha, htail]
    · simp only [findById, if_neg ha] at hfind
      simp [ha, ih hnd.2 hfind]

theorem putTask_eq_self (store : List Task) (t : Task)
    (hnd : (taskIds store).Nodup) (hfind : findById store t.id = some t) :
    putTask store t = store := by
  unfold putTask
  have hc : containsId store t.id = true := by
    unfold containsId
    rw [hfind]
    rfl
  rw [if_pos hc]
  exact replaceAll_eq_self t store hnd hfind

/-! ## Merge and persistence lemmas -/

@[simp] theorem markIfNotion_id (b : Bool) (t : Task) :
    (markIfNotion b t).id = t.id := by
  unfold markIfNotion
  split <;> rfl

@[simp] theorem markIfNotion_read (b : Bool) (t : Task) :
    (markIfNotion b t).read = t.read := by
  unfold markIfNotion
  split <;> rfl

@[simp] theorem markIfNotion_stocked (b : Bool) (t : Task) :
    (markIfNotion b t).stocked = t.stocked := by
  unfold markIfNotion
  split <;> rfl

@[simp] theorem markIfNotion_sourceId (b : Bool) (t : Task) :
    (markIfNotion b t).sourceId = t.sourceId := by
  unfold markIfNotion
  split <;> rfl

@[simp] theorem markIfNotion_false (t : Task) : markIfNotion false t = t := rfl

@[simp] theorem mergeOne_id (store : List Task) (f : Task) :
    (mergeOne store f).id = f.id := by
  unfold mergeOne
  cases lookupBySourceId store f.sourceId <;> rfl

@[simp] theorem mergeOne_sourceId (store : List Task) (f : Task) :
    (mergeOne store f).sourceId = f.sourceId := by
  unfold mergeOne
  cases lookupBySourceId store f.sourceId <;> rfl

theorem taskIds_mergeFetched (store page : List Task) :
    taskIds (mergeFetched store page) = taskIds page := by
  unfold taskIds mergeFetched
  rw [List.map_map]
  exact List.map_congr_left fun f _ => mergeOne_id store f

theorem findById_persistMerged_notmem (merged : List Task) :
    ∀ (store : List Task) (x : String), x ∉ taskIds merged →
      findById (persistMerged store merged) x = findById store x := by
  induction merged with
  | nil => intro store x _; rfl
  | cons m rest ih =>
    intro store x hx
    simp only [taskIds, List.map_cons, List.mem_cons, not_or] at hx
    have step : persistMerged store (m :: rest)
        = persistMerged (idbUpdateTask store m true) rest := rfl
    rw [step, ih _ x (by simpa [taskIds] using hx.2)]
    unfold idbUpdateTask
    rw [findById_putTask]
    simp [markIfNotion_id, hx.1]

theorem findById_persistMerged_mem (merged : List Task) :
    ∀ (store : List Task), (taskIds merged).Nodup →
      ∀ m ∈ merged, findById (persistMerged store merged) m.id
        = some (markIfNotion true m) := by
  induction merged with
  | nil => intro store _ m hm; cases hm
  | cons a rest ih =>
    intro store hnd m hm
    simp only [taskIds, List.map_cons, List.nodup_cons] at hnd
    have step : persistMerged store (a :: rest)
        = persistMerged (idbUpdateTask store a true) rest := rfl
    rcases List.mem_cons.mp hm with h | h
    · subst h
      rw [step, findById_persistMerged_notmem rest _ m.id (by simpa [taskIds] using hnd.1)]
      unfold idbUpdateTask
      rw [findById_putTask]
      simp
    · exact step ▸ ih _ hnd.2 m h

theorem taskIds_nodup_persistMerged (merged : List Task) :
    ∀ store : List Task, (taskIds store).Nodup →
      (taskIds (persistMerged store merged)).Nodup := by
  induction merged with
  | nil => intro store h; exact h
  | cons a rest ih =>
    intro store h
    have step : persistMerged store (a :: rest)
        = persistMerged (idbUpdateTask store a true) rest := rfl
    rw [step]
    exact ih _ (taskIds_nodup_putTask _ _ h)

theorem mem_persistMerged (merged : List Task) :
    ∀ (store : List Task) (y : Task), y ∈ persistMerged store merged →
      y ∈ store ∨ ∃ m ∈ merged, y = markIfNotion true m := by
  induction merged with
  | nil => intro store y hy; exact Or.inl hy
  | cons a rest ih =>
    intro store y hy
    have step : persistMerged store (a :: rest)
        = persistMerged (idbUpdateTask store a true) rest := rfl
    rw [step] at hy
    rcases ih _ y hy with h | ⟨m, hm, hym⟩
    · rcases mem_putTask _ _ _ h with h2 | h2
      · exact Or.inl h2
      · exact Or.inr ⟨a, List.mem_cons_self _ _, h2⟩
    · exact Or.inr ⟨m, List.mem_cons_of_mem _ hm, hym⟩

theorem findById_reverse (store : List Task) (x : String)
    (hnd : (taskIds store).Nodup) :
    findById store.reverse x = findById store x := by
  induction store with
  | nil => rfl
  | cons a rest ih =>
    simp only [taskIds, List.map_cons, List.nodup_cons] at hnd
    rw [List.reverse_cons, findById_append]
    by_cases ha : a.id = x
    · have hrev : findById rest.reverse x = none := by
        rw [findById_eq_none_iff]
        intro y hy hid
        exact hnd.1 (ha ▸ hid ▸ List.mem_map_of_mem Task.id (List.mem_reverse.mp hy))
      simp [hrev, findById, ha]
    · rw [ih hnd.2]
      simp [findById, ha]

theorem findBySourceId_eq_findById (store : List Task) (x : String)
    (hsid : ∀ t ∈ store, t.sourceId = t.id) :
    findBySourceId store x = findById store x := by
  induction store with
  | nil => rfl
  | cons a rest ih =>
    have ha := hsid a (List.mem_cons_self _ _)
    simp only [findBySourceId, findById, ha]
    split
    · rfl
    · exact ih fun t ht => hsid t (List.mem_cons_of_mem _ ht)

theorem lookupBySourceId_eq_findById (store : List Task) (x : String)
    (hnd : (taskIds store).Nodup) (hsid : ∀ t ∈ store, t.sourceId = t.id) :
    lookupBySourceId store x = findById store x := by
  unfold lookupBySourceId
  rw [findBySourceId_eq_findById store.reverse x
      (fun t ht => hsid t (List.mem_reverse.mp ht))]
  exact findById_reverse store x hnd

theorem persistMerged_fixed (s : List Task) (merged : List Task)
    (hnd : (taskIds s).Nodup)
    (h : ∀ m ∈ merged, findById s (markIfNotion true m).id = some (markIfNotion true m)) :
    persistMerged s merged = s := by
  induction merged with
  | nil => rfl
  | cons a rest ih =>
    have step : persistMerged s (a :: rest)
        = persistMerged (idbUpdateTask s a true) rest := rfl
    rw [step]
    unfold idbUpdateTask
    rw [putTask_eq_self s _ hnd (h a (List.mem_cons_self _ _))]
    exact ih fun m hm => h m (List.mem_cons_of_mem _ hm)

/-- The record the sync engine leaves in the store for a fetched item `f`:
the merged task, run through `updateTask`'s mark-unsynced rule. -/
theorem findById_syncMergePersist (store page : List Task) (f : Task)
    (hpage : (taskIds page).Nodup) (hf : f ∈ page) :
    findById (syncMergePersist store page) f.id
      = some (markIfNotion true (mergeOne store f)) := by
  have hmerged : (taskIds (mergeFetched store page)).Nodup := by
    rw [taskIds_mergeFetched]
    exact hpage
  have hmem : mergeOne store f ∈ mergeFetched store page :=
    List.mem_map_of_mem (mergeOne store) hf
  have h := findById_persistMerged_mem (mergeFetched store page) store hmerged
    (mergeOne store f) hmem
  rw [mergeOne_id] at h
  exact h

/-! ## Concrete tasks used in counterexamples and witnesses -/

/-- A Notion-sourced task with every optional field absent, used as the
base of the concrete examples below. -/
def baseTask : Task :=
  { id := ""
    title := ""
    description := none
    completed := false
    stocked := false
    read := false
    createdAt := 0
    updatedAt := 0
    source := TaskSource.notion
    sourceId := ""
    tags := none
    author := none
    imageUrl := none
    url := none
    iconUrl := none
    notionPageUrl := none
    ogpImageUrl := none
    syncedWithNotion := false }

/-- Stored prior record for C1: a pushed (synced) Notion task. -/
def c1Prior : Task :=
  { baseTask with
    id := "p1"
    sourceId := "p1"
    title := "old title"
    createdAt := 10
    updatedAt := 10
    syncedWithNotion := true }

/-- The same item as freshly fetched from Notion for C1. -/
def c1Fetched : Task :=
  { baseTask with
    id := "p1"
    sourceId := "p1"
    title := "new title"
    createdAt := 10
    updatedAt := 20
    syncedWithNotion := true }

/-- C1 store before the sync. -/
def c1Store : List Task := [c1Prior]

/-! ## Claim C1 -/

/-- C1 (as written) is false on the code, because the persistence loop of
`mergeTasks` calls `dbManager.updateTask(task)` with the default
`markAsUnsynced = true`, which sets `syncedWithNotion = false` on every
Notion-sourced task before the `put`.  Concretely: the store holds a Notion
task with `syncedWithNotion = true`, the same item is re-fetched (also
carrying `syncedWithNotion = true`), and the record the engine leaves in
the store has `syncedWithNotion = false` — neither the prior flag was
preserved nor the fetched item inserted/overwritten as-is. -/
theorem claim_c1_counterexample :
    (findById c1Store "p1").map Task.syncedWithNotion = some true
      ∧ c1Fetched.syncedWithNotion = true
      ∧ (findById (syncMergePersist c1Store [c1Fetched]) "p1").map
          Task.syncedWithNotion = some false := by
  decide

/-- C1 (amended): for every fetched item `f` of a page with distinct ids,
the record the sync engine's upsert leaves under `f.id` preserves the prior
record's `read` and `stocked` and takes every other field from `f` —
except that `syncedWithNotion` is not preserved: it is forced to `false`
whenever `f.source` is `'notion'` (and keeps the freshly fetched value
otherwise), both when a prior record with that `sourceId` exists and when
the item is inserted fresh. -/
theorem claim_c1_amended (store page : List Task) (f : Task)
    (hpage : (taskIds page).Nodup) (hf : f ∈ page) :
    findById (syncMergePersist store page) f.id
        = some (markIfNotion true (mergeOne store f))
      ∧ (∀ e, lookupBySourceId store f.sourceId = some e →
          markIfNotion true (mergeOne store f)
            = { f with
                read := e.read
                stocked := e.stocked
                syncedWithNotion :=
                  if f.source = TaskSource.notion then false
                  else f.syncedWithNotion })
      ∧ (lookupBySourceId store f.sourceId = none →
          markIfNotion true (mergeOne store f)
            = { f with
                syncedWithNotion :=
                  if f.source = TaskSource.notion then false
                  else f.syncedWithNotion }) := by
  refine ⟨findById_syncMergePersist store page f hpage hf, ?_, ?_⟩
  · intro e he
    unfold mergeOne markIfNotion
    rw [he]
    by_cases hsrc : f.source = TaskSource.notion <;> simp [hsrc]
  · intro he
    unfold mergeOne markIfNotion
    rw [he]
    by_cases hsrc : f.source = TaskSource.notion <;> simp [hsrc]

/-- Concrete instantiation of `claim_c1_amended`. -/
theorem claim_c1_amended_witness :
    ((taskIds [c1Fetched]).Nodup ∧ c1Fetched ∈ [c1Fetched])
      ∧ (findById (syncMergePersist c1Store [c1Fetched]) c1Fetched.id
            = some (markIfNotion true (mergeOne c1Store c1Fetched))
          ∧ (∀ e, lookupBySourceId c1Store c1Fetched.sourceId = some e →
              markIfNotion true (mergeOne c1Store c1Fetched)
                = { c1Fetched with
                    read := e.read
                    stocked := e.stocked
                    syncedWithNotion :=
                      if c1Fetched.source = TaskSource.notion then false
                      else c1Fetched.syncedWithNotion })
          ∧ (lookupBySourceId c1Store c1Fetched.sourceId = none →
              markIfNotion true (mergeOne c1Store c1Fetched)
                = { c1Fetched with
                    syncedWithNotion :=
                      if c1Fetched.source = TaskSource.notion then false
                      else c1Fetched.syncedWithNotion })) :=
  ⟨⟨by decide, by decide⟩,
   claim_c1_amended c1Store [c1Fetched] c1Fetched (by decide) (by decide)⟩

/-! ## Claim C2 -/

/-- C2: when a merge finds a prior local counterpart (same `sourceId`),
the stored result keeps the prior `read` and `stocked` — in particular a
`read=true, stocked=true` record re-fetched as `read=false, stocked=false`
stays `true`/`true` — and every non-flag field equals the freshly fetched
value. -/
theorem claim_c2_local_flag_preservation (store page : List Task) (f e : Task)
    (hpage : (taskIds page).Nodup) (hf : f ∈ page)
    (he : lookupBySourceId store f.sourceId = some e) :
    ∃ r, findById (syncMergePersist store page) f.id = some r
      ∧ r.read = e.read ∧ r.stocked = e.stocked
      ∧ r.id = f.id ∧ r.title = f.title ∧ r.description = f.description
      ∧ r.completed = f.completed ∧ r.createdAt = f.createdAt
      ∧ r.updatedAt = f.updatedAt ∧ r.source = f.source
      ∧ r.sourceId = f.sourceId ∧ r.tags = f.tags ∧ r.author = f.author
      ∧ r.imageUrl = f.imageUrl ∧ r.url = f.url ∧ r.iconUrl = f.iconUrl
      ∧ r.notionPageUrl = f.notionPageUrl ∧ r.ogpImageUrl = f.ogpImageUrl := by
  refine ⟨markIfNotion true (mergeOne store f),
    findById_syncMergePersist store page f hpage hf, ?_⟩
  unfold markIfNotion mergeOne
  rw [he]
  split <;> exact ⟨rfl, rfl, rfl, rfl, rfl, rfl, rfl, rfl, rfl, rfl, rfl,
    rfl, rfl, rfl, rfl, rfl, rfl⟩

/-- Stored prior record for C2: already read and stocked. -/
def c2Prior : Task :=
  { baseTask with
    id := "p2"
    sourceId := "p2"
    title := "old"
    read := true
    stocked := true }

/-- The same item re-fetched from remote with `read=false, stocked=false`. -/
def c2Fetched : Task :=
  { baseTask with
    id := "p2"
    sourceId := "p2"
    title := "fresh"
    updatedAt := 5 }

/-- Concrete instantiation of `claim_c2_local_flag_preservation` on the
claim's own scenario. -/
theorem claim_c2_witness :
    ((taskIds [c2Fetched]).Nodup ∧ c2Fetched ∈ [c2Fetched]
        ∧ lookupBySourceId [c2Prior] c2Fetched.sourceId = some c2Prior)
      ∧ (∃ r, findById (syncMergePersist [c2Prior] [c2Fetched]) c2Fetched.id = some r
          ∧ r.read = c2Prior.read ∧ r.stocked = c2Prior.stocked
          ∧ r.id = c2Fetched.id ∧ r.title = c2Fetched.title
          ∧ r.description = c2Fetched.description
          ∧ r.completed = c2Fetched.completed ∧ r.createdAt = c2Fetched.createdAt
          ∧ r.updatedAt = c2Fetched.updatedAt ∧ r.source = c2Fetched.source
          ∧ r.sourceId = c2Fetched.sourceId ∧ r.tags = c2Fetched.tags
          ∧ r.author = c2Fetched.author
          ∧ r.imageUrl = c2Fetched.imageUrl ∧ r.url = c2Fetched.url
          ∧ r.iconUrl = c2Fetched.iconUrl
          ∧ r.notionPageUrl = c2Fetched.notionPageUrl
          ∧ r.ogpImageUrl = c2Fetched.ogpImageUrl) :=
  ⟨⟨by decide, by decide, by decide⟩,
   claim_c2_local_flag_preservation [c2Prior] [c2Fetched] c2Fetched c2Prior
     (by decide) (by decide) (by decide)⟩

/-! ## Claim C3 -/

theorem sid_eq_id_syncMergePersist (store page : List Task)
    (hsidS : ∀ t ∈ store, t.sourceId = t.id)
    (hsidP : ∀ t ∈ page, t.sourceId = t.id) :
    ∀ t ∈ syncMergePersist store page, t.sourceId = t.id := by
  intro t ht
  rcases mem_persistMerged _ _ _ ht with h | ⟨m, hm, rfl⟩
  · exact hsidS t h
  · obtain ⟨f, hf, rfl⟩ := List.mem_map.mp hm
    simp [hsidP f hf]

theorem mergeOne_resync (store page : List Task) (f : Task)
    (hstore : (taskIds store).Nodup) (hpage : (taskIds page).Nodup)
    (hsidS : ∀ t ∈ store, t.sourceId = t.id)
    (hsidP : ∀ t ∈ page, t.sourceId = t.id) (hf : f ∈ page) :
    mergeOne (syncMergePersist store page) f = mergeOne store f := by
  have hs1nd : (taskIds (syncMergePersist store page)).Nodup :=
    taskIds_nodup_persistMerged _ _ hstore
  have hs1sid := sid_eq_id_syncMergePersist store page hsidS hsidP
  have hfid : findById (syncMergePersist store page) f.id
      = some (markIfNotion true (mergeOne store f)) :=
    findById_syncMergePersist store page f hpage hf
  have hlook : lookupBySourceId (syncMergePersist store page) f.sourceId
      = some (markIfNotion true (mergeOne store f)) := by
    rw [lookupBySourceId_eq_findById _ _ hs1nd hs1sid, hsidP f hf, hfid]
  unfold mergeOne
  rw [hlook]
  cases hE : lookupBySourceId store f.sourceId with
  | some e =>
    simp [markIfNotion_read, markIfNotion_stocked, mergeOne, hE]
  | none =>
    simp [markIfNotion_read, markIfNotion_stocked, mergeOne, hE]

/-- C3: syncing the same remote page twice is idempotent — with a
well-formed store and page (unique ids; every record's `id` equals its
`sourceId`, as holds for everything the API clients produce), the second
sync leaves the store exactly as it was after the first, so there is at
most one record per `id` and every record's `read`/`stocked` flags are
unchanged from their post-first-sync values. -/
theorem claim_c3_idempotent_merge (store page : List Task)
    (hstore : (taskIds store).Nodup) (hpage : (taskIds page).Nodup)
    (hsidS : ∀ t ∈ store, t.sourceId = t.id)
    (hsidP : ∀ t ∈ page, t.sourceId = t.id) :
    syncMergePersist (syncMergePersist store page) page = syncMergePersist store page
      ∧ (taskIds (syncMergePersist (syncMergePersist store page) page)).Nodup
      ∧ ∀ t ∈ syncMergePersist (syncMergePersist store page) page,
          ∃ u ∈ syncMergePersist store page,
            u.id = t.id ∧ t.read = u.read ∧ t.stocked = u.stocked := by
  have hs1nd : (taskIds (syncMergePersist store page)).Nodup :=
    taskIds_nodup_persistMerged _ _ hstore
  have hmf : mergeFetched (syncMergePersist store page) page = mergeFetched store page :=
    List.map_congr_left fun f hf =>
      mergeOne_resync store page f hstore hpage hsidS hsidP hf
  have hfix : syncMergePersist (syncMergePersist store page) page
      = syncMergePersist store page := by
    show persistMerged _ (mergeFetched _ page) = _
    rw [hmf]
    refine persistMerged_fixed _ _ hs1nd ?_
    intro m hm
    obtain ⟨f, hf, rfl⟩ := List.mem_map.mp hm
    rw [markIfNotion_id, mergeOne_id]
    exact findById_syncMergePersist store page f hpage hf
  refine ⟨hfix, by rw [hfix]; exact hs1nd, ?_⟩
  intro t ht
  rw [hfix] at ht
  exact ⟨t, ht, rfl, rfl, rfl⟩

/-- Concrete instantiation of `claim_c3_idempotent_merge`. -/
theorem claim_c3_witness :
    ((taskIds [c2Prior]).Nodup ∧ (taskIds [c1Fetched]).Nodup
        ∧ (∀ t ∈ [c2Prior], t.sourceId = t.id)
        ∧ (∀ t ∈ [c1Fetched], t.sourceId = t.id))
      ∧ (syncMergePersist (syncMergePersist [c2Prior] [c1Fetched]) [c1Fetched]
            = syncMergePersist [c2Prior] [c1Fetched]
          ∧ (taskIds (syncMergePersist (syncMergePersist [c2Prior] [c1Fetched])
              [c1Fetched])).Nodup
          ∧ ∀ t ∈ syncMergePersist (syncMergePersist [c2Prior] [c1Fetched]) [c1Fetched],
              ∃ u ∈ syncMergePersist [c2Prior] [c1Fetched],
                u.id = t.id ∧ t.read = u.read ∧ t.stocked = u.stocked) :=
  ⟨⟨by decide, by decide, by decide, by decide⟩,
   claim_c3_idempotent_merge [c2Prior] [c1Fetched]
     (by decide) (by decide) (by decide) (by decide)⟩

/-! ## Claim C4 -/

theorem getSyncErrorMessage_timeout :
    getSyncErrorMessage (some "Request timeout")
      = ⟨"データの同期がタイムアウトしました",
         "ネットワーク接続を確認してください。プロキシサーバーを使用している場合は、設定を確認してください。"⟩ := by
  decide

/-- C4: a remote fetch that does not settle within the 30 s timer loses the
`Promise.race` to `Error('Request timeout')`; the sync surfaces that error
with the timeout title and remediation text, and the engine's `finally`
block puts `syncState` back to `'idle'` — and that transition to `'idle'`
happens at the end of every `sync` run, for every environment and initial
idle state, success or failure alike. -/
theorem claim_c4_timeout_and_idle (loadMore : Bool) (env : SyncEnv)
    (st : EngineState)
    (hb : st.settings.backendType.isSome = true)
    (hclient : getApiClientToast st.settings = none)
    (hdelay : 30000 < env.fetchDelay) :
    getSyncErrorMessage (some "Request timeout")
        = ⟨"データの同期がタイムアウトしました",
           "ネットワーク接続を確認してください。プロキシサーバーを使用している場合は、設定を確認してください。"⟩
      ∧ (syncRun loadMore env st).errorDialog
          = some ⟨"データの同期がタイムアウトしました", "エラーの詳細情報:",
              "ネットワーク接続を確認してください。プロキシサーバーを使用している場合は、設定を確認してください。"⟩
      ∧ (syncRun loadMore env st).syncState = SyncState.idle
      ∧ ∀ (loadMore' : Bool) (env' : SyncEnv) (st' : EngineState),
          st'.syncState = SyncState.idle →
            (syncRun loadMore' env' st').syncState = SyncState.idle := by
  obtain ⟨b, hb'⟩ := Option.isSome_iff_exists.mp hb
  have hrace : raceWithTimeout env = Except.error "Request timeout" := by
    unfold raceWithTimeout
    rw [if_neg (by omega)]
  refine ⟨getSyncErrorMessage_timeout, ?_, ?_, ?_⟩
  · simp only [syncRun, hb', syncBody, hclient, hrace, handleSyncError,
      getSyncErrorMessage_timeout]
    rw [if_neg (by decide)]
  · simp [syncRun, hb', syncBody, hclient, hrace]
  · intro loadMore' env' st' hidle'
    unfold syncRun
    cases h : st'.settings.backendType <;> simp [h, hidle']

/-- Settings with a complete Notion configuration, used by the C4 and C6
concrete states. -/
def notionSettings : AppSettings :=
  { backendType := some TaskSource.notion
    notionApiKey := some "secret-key"
    notionDatabaseId := some "db-id"
    googleTasksCredentials := none
    proxyServerUrl := none
    lastSyncAt := none
    lastSyncCursor := none
    newestTaskCreatedAt := none
    oldestTaskCreatedAt := none }

/-- Idle engine state used by the C4 witness. -/
def c4State : EngineState :=
  { syncState := SyncState.idle
    hasMoreTasks := false
    store := []
    settings := notionSettings
    toasts := []
    errorDialog := none }

/-- Environment whose fetch has not settled after 31 s. -/
def c4Env : SyncEnv :=
  { fetchDelay := 31000
    fetchOutcome := Except.ok ⟨[], false, none⟩
    now := 0 }

/-- Concrete instantiation of `claim_c4_timeout_and_idle`. -/
theorem claim_c4_witness :
    (c4State.settings.backendType.isSome = true
        ∧ getApiClientToast c4State.settings = none
        ∧ 30000 < c4Env.fetchDelay)
      ∧ (getSyncErrorMessage (some "Request timeout")
            = ⟨"データの同期がタイムアウトしました",
               "ネットワーク接続を確認してください。プロキシサーバーを使用している場合は、設定を確認してください。"⟩
          ∧ (syncRun false c4Env c4State).errorDialog
              = some ⟨"データの同期がタイムアウトしました", "エラーの詳細情報:",
                  "ネットワーク接続を確認してください。プロキシサーバーを使用している場合は、設定を確認してください。"⟩
          ∧ (syncRun false c4Env c4State).syncState = SyncState.idle
          ∧ ∀ (loadMore' : Bool) (env' : SyncEnv) (st' : EngineState),
              st'.syncState = SyncState.idle →
                (syncRun loadMore' env' st').syncState = SyncState.idle) :=
  ⟨⟨by decide, by decide, by decide⟩,
   claim_c4_timeout_and_idle false c4Env c4State
     (by decide) (by decide) (by decide)⟩

/-! ## Claim C6 -/

/-- Engine state with older history still available (`hasMoreTasks = true`). -/
def c6State : EngineState :=
  { syncState := SyncState.idle
    hasMoreTasks := true
    store := []
    settings := notionSettings
    toasts := []
    errorDialog := none }

/-- Environment whose fetch promptly returns zero items. -/
def c6Env : SyncEnv :=
  { fetchDelay := 100
    fetchOutcome := Except.ok ⟨[], true, none⟩
    now := 0 }

/-- C6 (as written) is false on the code: `fetchTasks` runs
`setHasMoreTasks(false)` in its zero-item branch on **both** directions, so
a `refresh` that returns zero items does not leave `hasMoreTasks`
unchanged — here it flips it from `true` to `false` (while also emitting
the "no new items" notice, which the claim correctly predicts). -/
theorem claim_c6_counterexample :
    c6State.hasMoreTasks = true
      ∧ (syncRun false c6Env c6State).hasMoreTasks = false
      ∧ (syncRun false c6Env c6State).toasts = ["新しいタスクはありませんでした"] := by
  decide

/-- C6 (amended): when a fetch returns zero items the engine sets
`hasMoreTasks` to `false` regardless of the sync direction; the
informational "no new items" notice is emitted only when the direction was
`refresh`, and the store is left untouched. -/
theorem claim_c6_amended (loadMore : Bool) (env : SyncEnv) (st : EngineState)
    (r : FetchTasksResult)
    (hb : st.settings.backendType.isSome = true)
    (hclient : getApiClientToast st.settings = none)
    (hdelay : env.fetchDelay ≤ 30000)
    (houtcome : env.fetchOutcome = Except.ok r)
    (hempty : r.tasks = []) :
    (syncRun loadMore env st).hasMoreTasks = false
      ∧ (syncRun loadMore env st).toasts
          = st.toasts ++ (if loadMore then [] else ["新しいタスクはありませんでした"])
      ∧ (syncRun loadMore env st).store = st.store := by
  obtain ⟨b, hb'⟩ := Option.isSome_iff_exists.mp hb
  have hrace : raceWithTimeout env = Except.ok r := by
    unfold raceWithTimeout
    rw [if_pos hdelay, houtcome]
  cases loadMore <;>
    simp [syncRun, hb', syncBody, hclient, hrace, hempty]

/-- Concrete instantiation of `claim_c6_amended` on a `loadMore` run. -/
theorem claim_c6_amended_witness :
    (c6State.settings.backendType.isSome = true
        ∧ getApiClientToast c6State.settings = none
        ∧ c6Env.fetchDelay ≤ 30000
        ∧ c6Env.fetchOutcome = Except.ok ⟨[], true, none⟩
        ∧ (⟨[], true, none⟩ : FetchTasksResult).tasks = [])
      ∧ ((syncRun true c6Env c6State).hasMoreTasks = false
          ∧ (syncRun true c6Env c6State).toasts
              = c6State.toasts ++ (if true then [] else ["新しいタスクはありませんでした"])
          ∧ (syncRun true c6Env c6State).store = c6State.store) :=
  ⟨⟨by decide, by decide, by decide, rfl, by decide⟩,
   claim_c6_amended true c6Env c6State ⟨[], true, none⟩
     (by decide) (by decide) (by decide) rfl (by decide)⟩

/-! ## Claim C5 -/

theorem pushLoop_counts (updateOk : Task → Bool) :
    ∀ (ts store : List Task),
      (pushLoop updateOk store ts).success = (ts.filter updateOk).length
        ∧ (pushLoop updateOk store ts).failed
            = (ts.filter (fun t => !updateOk t)).length := by
  intro ts
  induction ts with
  | nil => intro store; exact ⟨rfl, rfl⟩
  | cons t rest ih =>
    intro store
    by_cases h : updateOk t
    · simp [pushLoop, h, (ih _).1, (ih _).2]
    · simp [pushLoop, h, (ih _).1, (ih _).2]

theorem pushLoop_findById_notmem (updateOk : Task → Bool) :
    ∀ (ts store : List Task) (x : String), x ∉ taskIds ts →
      findById (pushLoop updateOk store ts).store x = findById store x := by
  intro ts
  induction ts with
  | nil => intro store x _; rfl
  | cons t rest ih =>
    intro store x hx
    simp only [taskIds, List.map_cons, List.mem_cons, not_or] at hx
    by_cases h : updateOk t
    · have step : (pushLoop updateOk store (t :: rest)).store
          = (pushLoop updateOk
              (idbUpdateTask store { t with syncedWithNotion := true } false) rest).store := by
        simp [pushLoop, h]
      rw [step, ih _ x (by simpa [taskIds] using hx.2)]
      unfold idbUpdateTask
      rw [markIfNotion_false, findById_putTask]
      simp [hx.1]
    · have step : (pushLoop updateOk store (t :: rest)).store
          = (pushLoop updateOk store rest).store := by
        simp [pushLoop, h]
      rw [step, ih _ x (by simpa [taskIds] using hx.2)]

theorem pushLoop_findById_mem (updateOk : Task → Bool) :
    ∀ (ts store : List Task), (taskIds ts).Nodup →
      (∀ t ∈ ts, findById store t.id = some t) →
      ∀ t ∈ ts, findById (pushLoop updateOk store ts).store t.id
        = some (if updateOk t then { t with syncedWithNotion := true } else t) := by
  intro ts
  induction ts with
  | nil => intro store _ _ t ht; cases ht
  | cons a rest ih =>
    intro store hnd hfind t ht
    simp only [taskIds, List.map_cons, List.nodup_cons] at hnd
    rcases List.mem_cons.mp ht with h | h
    · subst h
      by_cases hok : updateOk t
      · have step : (pushLoop updateOk store (t :: rest)).store
            = (pushLoop updateOk
                (idbUpdateTask store { t with syncedWithNotion := true } false) rest).store := by
          simp [pushLoop, hok]
        rw [step,
          pushLoop_findById_notmem updateOk rest _ t.id (by simpa [taskIds] using hnd.1)]
        unfold idbUpdateTask
        rw [markIfNotion_false, findById_putTask]
        simp [hok]
      · have step : (pushLoop updateOk store (t :: rest)).store
            = (pushLoop updateOk store rest).store := by
          simp [pushLoop, hok]
        rw [step,
          pushLoop_findById_notmem updateOk rest _ t.id (by simpa [taskIds] using hnd.1)]
        simp [hok, hfind t (List.mem_cons_self _ _)]
    · by_cases hok : updateOk a
      · have step : (pushLoop updateOk store (a :: rest)).store
            = (pushLoop updateOk
                (idbUpdateTask store { a with syncedWithNotion := true } false) rest).store := by
          simp [pushLoop, hok]
        rw [step]
        refine ih _ hnd.2 ?_ t h
        intro u hu
        unfold idbUpdateTask
        rw [markIfNotion_false, findById_putTask]
        have hne : u.id ≠ a.id := by
          intro heq
          exact hnd.1 (heq ▸ List.mem_map_of_mem Task.id hu)
        simp only [if_neg (by simpa using hne)]
        exact hfind u (List.mem_cons_of_mem _ hu)
      · have step : (pushLoop updateOk store (a :: rest)).store
            = (pushLoop updateOk store rest).store := by
          simp [pushLoop, hok]
        rw [step]
        exact ih _ hnd.2 (fun u hu => hfind u (List.mem_cons_of_mem _ hu)) t h

theorem taskIds_unsynced_nodup (store : List Task)
    (hnd : (taskIds store).Nodup) :
    (taskIds (getUnsyncedNotionTasks store)).Nodup :=
  ((List.filter_sublist store).map Task.id).nodup hnd

/-- Pushing three unsynced Notion tasks where the remote update of the
second one throws. -/
def c5Task1 : Task :=
  { baseTask with id := "n1", sourceId := "n1", title := "first" }

/-- Second unsynced task (its remote update throws). -/
def c5Task2 : Task :=
  { baseTask with id := "n2", sourceId := "n2", title := "second" }

/-- Third unsynced task. -/
def c5Task3 : Task :=
  { baseTask with id := "n3", sourceId := "n3", title := "third" }

/-- C5 store: three unsynced Notion tasks. -/
def c5Store : List Task := [c5Task1, c5Task2, c5Task3]

/-- Remote update outcome for the C5 example: only the second task's
update throws. -/
def c5UpdateOk (t : Task) : Bool := !(t.id = "n2")

/-- C5: with the Notion credentials configured and a store with unique
ids, `syncTasksWithNotion` attempts exactly the tasks with
`source = 'notion'` and `syncedWithNotion = false`, one by one: the
`success` count is the number of updates that succeed, `failed` the number
that throw, a successful task is re-persisted with
`syncedWithNotion = true` (not re-marked unsynced), a failing task's record
and every record outside that set are untouched, and the whole operation
returns the counts instead of throwing; on the three-task example with the
second update throwing it returns `{success: 2, failed: 1}` with the first
and third tasks synced and the second still unsynced. -/
theorem claim_c5_push_back_isolation (store : List Task)
    (settings : AppSettings) (updateOk : Task → Bool)
    (hcreds : (jsTruthy settings.notionApiKey && jsTruthy settings.notionDatabaseId) = true)
    (hnd : (taskIds store).Nodup) :
    (syncTasksWithNotion store settings updateOk).success
        = ((getUnsyncedNotionTasks store).filter updateOk).length
      ∧ (syncTasksWithNotion store settings updateOk).failed
          = ((getUnsyncedNotionTasks store).filter (fun t => !updateOk t)).length
      ∧ (∀ t ∈ getUnsyncedNotionTasks store,
          findById (syncTasksWithNotion store settings updateOk).store t.id
            = some (if updateOk t then { t with syncedWithNotion := true } else t))
      ∧ (∀ x, x ∉ taskIds (getUnsyncedNotionTasks store) →
          findById (syncTasksWithNotion store settings updateOk).store x
            = findById store x)
      ∧ (syncTasksWithNotion c5Store notionSettings c5UpdateOk).success = 2
      ∧ (syncTasksWithNotion c5Store notionSettings c5UpdateOk).failed = 1
      ∧ findById (syncTasksWithNotion c5Store notionSettings c5UpdateOk).store "n1"
          = some { c5Task1 with syncedWithNotion := true }
      ∧ findById (syncTasksWithNotion c5Store notionSettings c5UpdateOk).store "n2"
          = some c5Task2
      ∧ findById (syncTasksWithNotion c5Store notionSettings c5UpdateOk).store "n3"
          = some { c5Task3 with syncedWithNotion := true } := by
  have hrun : syncTasksWithNotion store settings updateOk
      = pushLoop updateOk store (getUnsyncedNotionTasks store) := by
    unfold syncTasksWithNotion
    by_cases hlen : (getUnsyncedNotionTasks store).length = 0
    · rw [List.length_eq_zero] at hlen
      simp [hcreds, hlen, pushLoop]
    · simp [hcreds, hlen]
  have hsub : ∀ t ∈ getUnsyncedNotionTasks store, t ∈ store := by
    intro t ht
    exact List.mem_of_mem_filter ht
  refine ⟨?_, ?_, ?_, ?_, by decide, by decide, by decide, by decide, by decide⟩
  · rw [hrun]
    exact (pushLoop_counts updateOk _ store).1
  · rw [hrun]
    exact (pushLoop_counts updateOk _ store).2
  · intro t ht
    rw [hrun]
    exact pushLoop_findById_mem updateOk _ store (taskIds_unsynced_nodup store hnd)
      (fun u hu => findById_mem_of_nodup store u hnd (hsub u hu)) t ht
  · intro x hx
    rw [hrun]
    exact pushLoop_findById_notmem updateOk _ store x hx

/-- Concrete instantiation of `claim_c5_push_back_isolation` on its own
three-task example. -/
theorem claim_c5_witness :
    ((jsTruthy notionSettings.notionApiKey
          && jsTruthy notionSettings.notionDatabaseId) = true
        ∧ (taskIds c5Store).Nodup)
      ∧ ((syncTasksWithNotion c5Store notionSettings c5UpdateOk).success
            = ((getUnsyncedNotionTasks c5Store).filter c5UpdateOk).length
          ∧ (syncTasksWithNotion c5Store notionSettings c5UpdateOk).failed
              = ((getUnsyncedNotionTasks c5Store).filter
                  (fun t => !c5UpdateOk t)).length
          ∧ (∀ t ∈ getUnsyncedNotionTasks c5Store,
              findById (syncTasksWithNotion c5Store notionSettings c5UpdateOk).store t.id
                = some (if c5UpdateOk t then { t with syncedWithNotion := true } else t))
          ∧ (∀ x, x ∉ taskIds (getUnsyncedNotionTasks c5Store) →
              findById (syncTasksWithNotion c5Store notionSettings c5UpdateOk).store x
                = findById c5Store x)
          ∧ (syncTasksWithNotion c5Store notionSettings c5UpdateOk).success = 2
          ∧ (syncTasksWithNotion c5Store notionSettings c5UpdateOk).failed = 1
          ∧ findById (syncTasksWithNotion c5Store notionSettings c5UpdateOk).store "n1"
              = some { c5Task1 with syncedWithNotion := true }
          ∧ findById (syncTasksWithNotion c5Store notionSettings c5UpdateOk).store "n2"
              = some c5Task2
          ∧ findById (syncTasksWithNotion c5Store notionSettings c5UpdateOk).store "n3"
              = some { c5Task3 with syncedWithNotion := true }) :=
  ⟨⟨by decide, by decide⟩,
   claim_c5_push_back_isolation c5Store notionSettings c5UpdateOk
     (by decide) (by decide)⟩

/-! ## Claim C7 -/

/-- C7: a date-range `loadMore` with `oldestTaskCreatedAt` unset is a
no-op — it reports `hasMore = false`, issues zero network calls to the
Remote Source Adapter, and fetches nothing, whatever the adapter would
have answered. -/
theorem claim_c7_no_more_data_boundary (settings : AppSettings)
    (fetchBefore : Int → FetchTasksResult)
    (hunset : settings.oldestTaskCreatedAt = none) :
    dateRangeLoadMore settings fetchBefore
      = { hasMore := false, networkCalls := 0, fetched := [] } := by
  unfold dateRangeLoadMore
  rw [hunset]

/-- An adapter answer (never reached in the C7 witness). -/
def c7Fetch : Int → FetchTasksResult := fun _ => ⟨[c1Fetched], true, none⟩

/-- Concrete instantiation of `claim_c7_no_more_data_boundary`. -/
theorem claim_c7_witness :
    notionSettings.oldestTaskCreatedAt = none
      ∧ dateRangeLoadMore notionSettings c7Fetch
          = { hasMore := false, networkCalls := 0, fetched := [] } :=
  ⟨by decide, claim_c7_no_more_data_boundary notionSettings c7Fetch (by decide)⟩

/-! ## Claim C8 -/

theorem foldl_max_bounds (l : List Int) : ∀ a : Int,
    (l.foldl max a = a ∨ l.foldl max a ∈ l)
      ∧ a ≤ l.foldl max a
      ∧ ∀ x ∈ l, x ≤ l.foldl max a := by
  induction l with
  | nil =>
    intro a
    exact ⟨Or.inl rfl, le_refl a, fun x hx => absurd hx (List.not_mem_nil x)⟩
  | cons b l ih =>
    intro a
    obtain ⟨hmem, hle, hbound⟩ := ih (max a b)
    simp only [List.foldl_cons]
    refine ⟨?_, le_trans (le_max_left a b) hle, ?_⟩
    · rcases hmem with h | h
      · rcases max_choice a b with hc | hc
        · exact Or.inl (h.trans hc)
        · rw [h, hc]
          exact Or.inr (List.mem_cons_self b l)
      · exact Or.inr (List.mem_cons_of_mem b h)
    · intro x hx
      rcases List.mem_cons.mp hx with h | h
      · subst h
        exact le_trans (le_max_right a x) hle
      · exact hbound x h

theorem foldl_min_bounds (l : List Int) : ∀ a : Int,
    (l.foldl min a = a ∨ l.foldl min a ∈ l)
      ∧ l.foldl min a ≤ a
      ∧ ∀ x ∈ l, l.foldl min a ≤ x := by
  induction l with
  | nil =>
    intro a
    exact ⟨Or.inl rfl, le_refl a, fun x hx => absurd hx (List.not_mem_nil x)⟩
  | cons b l ih =>
    intro a
    obtain ⟨hmem, hle, hbound⟩ := ih (min a b)
    simp only [List.foldl_cons]
    refine ⟨?_, le_trans hle (min_le_left a b), ?_⟩
    · rcases hmem with h | h
      · rcases min_choice a b with hc | hc
        · exact Or.inl (h.trans hc)
        · rw [h, hc]
          exact Or.inr (List.mem_cons_self b l)
      · exact Or.inr (List.mem_cons_of_mem b h)
    · intro x hx
      rcases List.mem_cons.mp hx with h | h
      · subst h
        exact le_trans hle (min_le_right a x)
      · exact hbound x h

theorem maxCreatedAt_spec (ts : List Task) (h : ts ≠ []) :
    maxCreatedAt ts ∈ ts.map Task.createdAt
      ∧ ∀ c ∈ ts.map Task.createdAt, c ≤ maxCreatedAt ts := by
  cases ts with
  | nil => exact absurd rfl h
  | cons t rest =>
    have hfold : maxCreatedAt (t :: rest)
        = (rest.map Task.createdAt).foldl max t.createdAt := by
      unfold maxCreatedAt
      rw [List.foldl_map]
    obtain ⟨hmem, hle, hbound⟩ := foldl_max_bounds (rest.map Task.createdAt) t.createdAt
    constructor
    · rw [hfold, List.map_cons]
      rcases hmem with hm | hm
      · rw [hm]
        exact List.mem_cons_self _ _
      · exact List.mem_cons_of_mem _ hm
    · intro c hc
      rw [List.map_cons] at hc
      rw [hfold]
      rcases List.mem_cons.mp hc with h2 | h2
      · subst h2
        exact hle
      · exact hbound c h2

theorem minCreatedAt_spec (ts : List Task) (h : ts ≠ []) :
    minCreatedAt ts ∈ ts.map Task.createdAt
      ∧ ∀ c ∈ ts.map Task.createdAt, minCreatedAt ts ≤ c := by
  cases ts with
  | nil => exact absurd rfl h
  | cons t rest =>
    have hfold : minCreatedAt (t :: rest)
        = (rest.map Task.createdAt).foldl min t.createdAt := by
      unfold minCreatedAt
      rw [List.foldl_map]
    obtain ⟨hmem, hle, hbound⟩ := foldl_min_bounds (rest.map Task.createdAt) t.createdAt
    constructor
    · rw [hfold, List.map_cons]
      rcases hmem with hm | hm
      · rw [hm]
        exact List.mem_cons_self _ _
      · exact List.mem_cons_of_mem _ hm
    · intro c hc
      rw [List.map_cons] at hc
      rw [hfold]
      rcases List.mem_cons.mp hc with h2 | h2
      · subst h2
        exact hle
      · exact hbound c h2

theorem foldNewest_step (batches : List (List Task)) :
    ∀ (s : AppSettings) (m0 : Int),
      (∀ b ∈ batches, b ≠ []) → s.newestTaskCreatedAt = some m0 →
      ∃ m, (batches.foldl updateDateRangeSettings s).newestTaskCreatedAt = some m
        ∧ (m = m0 ∨ m ∈ (batches.flatten).map Task.createdAt)
        ∧ m0 ≤ m
        ∧ ∀ c ∈ (batches.flatten).map Task.createdAt, c ≤ m := by
  induction batches with
  | nil =>
    intro s m0 _ hs
    exact ⟨m0, hs, Or.inl rfl, le_refl _, by simp⟩
  | cons b bs ih =>
    intro s m0 hne hs
    have hb : b ≠ [] := hne b (List.mem_cons_self _ _)
    have hstep : (updateDateRangeSettings s b).newestTaskCreatedAt
        = some (max m0 (maxCreatedAt b)) := by
      unfold updateDateRangeSettings
      rw [if_neg (by simpa [List.isEmpty_iff] using hb)]
      simp [optMax, hs]
    obtain ⟨m, hm, hmem, hle, hbound⟩ :=
      ih (updateDateRangeSettings s b) (max m0 (maxCreatedAt b))
        (fun x hx => hne x (List.mem_cons_of_mem _ hx)) hstep
    obtain ⟨hmaxmem, hmaxbound⟩ := maxCreatedAt_spec b hb
    refine ⟨m, hm, ?_, le_trans (le_max_left _ _) hle, ?_⟩
    · rcases hmem with h | h
      · rcases max_choice m0 (maxCreatedAt b) with hc | hc
        · exact Or.inl (h.trans hc)
        · refine Or.inr ?_
          rw [List.flatten_cons, List.map_append]
          exact List.mem_append_left _ ((h.trans hc) ▸ hmaxmem)
      · refine Or.inr ?_
        rw [List.flatten_cons, List.map_append]
        exact List.mem_append_right _ h
    · intro c hc
      rw [List.flatten_cons, List.map_append] at hc
      rcases List.mem_append.mp hc with h | h
      · exact le_trans (hmaxbound c h) (le_trans (le_max_right _ _) hle)
      · exact hbound c h

theorem foldOldest_step (batches : List (List Task)) :
    ∀ (s : AppSettings) (m0 : Int),
      (∀ b ∈ batches, b ≠ []) → s.oldestTaskCreatedAt = some m0 →
      ∃ m, (batches.foldl updateDateRangeSettings s).oldestTaskCreatedAt = some m
        ∧ (m = m0 ∨ m ∈ (batches.flatten).map Task.createdAt)
        ∧ m ≤ m0
        ∧ ∀ c ∈ (batches.flatten).map Task.createdAt, m ≤ c := by
  induction batches with
  | nil =>
    intro s m0 _ hs
    exact ⟨m0, hs, Or.inl rfl, le_refl _, by simp⟩
  | cons b bs ih =>
    intro s m0 hne hs
    have hb : b ≠ [] := hne b (List.mem_cons_self _ _)
    have hstep : (updateDateRangeSettings s b).oldestTaskCreatedAt
        = some (min m0 (minCreatedAt b)) := by
      unfold updateDateRangeSettings
      rw [if_neg (by simpa [List.isEmpty_iff] using hb)]
      simp [optMin, hs]
    obtain ⟨m, hm, hmem, hle, hbound⟩ :=
      ih (updateDateRangeSettings s b) (min m0 (minCreatedAt b))
        (fun x hx => hne x (List.mem_cons_of_mem _ hx)) hstep
    obtain ⟨hminmem, hminbound⟩ := minCreatedAt_spec b hb
    refine ⟨m, hm, ?_, le_trans hle (min_le_left _ _), ?_⟩
    · rcases hmem with h | h
      · rcases min_choice m0 (minCreatedAt b) with hc | hc
        · exact Or.inl (h.trans hc)
        · refine Or.inr ?_
          rw [List.flatten_cons, List.map_append]
          exact List.mem_append_left _ ((h.trans hc) ▸ hminmem)
      · refine Or.inr ?_
        rw [List.flatten_cons, List.map_append]
        exact List.mem_append_right _ h
    · intro c hc
      rw [List.flatten_cons, List.map_append] at hc
      rcases List.mem_append.mp hc with h | h
      · exact le_trans (le_trans hle (min_le_right _ _)) (hminbound c h)
      · exact hbound c h

/-- C8: after a successful sync that fetched at least one item, the
date-range settings update (modelled from the spec, §4.1 step 7) sets
`newestTaskCreatedAt` to `max(current, max createdAt)` and
`oldestTaskCreatedAt` to `min(current, min createdAt)` in the persisted
settings; consequently, starting from unset bounds, folding it over `N`
non-empty fetched batches leaves `newestTaskCreatedAt` equal to the
maximum `createdAt` seen across all batches, and `oldestTaskCreatedAt`
equal to the minimum seen. -/
theorem claim_c8_date_range_monotonicity :
    (∀ (s : AppSettings) (fetched : List Task), fetched ≠ [] →
        (updateDateRangeSettings s fetched).newestTaskCreatedAt
            = some (optMax s.newestTaskCreatedAt (maxCreatedAt fetched))
          ∧ (updateDateRangeSettings s fetched).oldestTaskCreatedAt
            = some (optMin s.oldestTaskCreatedAt (minCreatedAt fetched)))
      ∧ (∀ (batches : List (List Task)) (s0 : AppSettings),
          (∀ b ∈ batches, b ≠ []) → batches ≠ [] →
          s0.newestTaskCreatedAt = none →
          ∃ m, (batches.foldl updateDateRangeSettings s0).newestTaskCreatedAt = some m
            ∧ m ∈ (batches.flatten).map Task.createdAt
            ∧ ∀ c ∈ (batches.flatten).map Task.createdAt, c ≤ m)
      ∧ (∀ (batches : List (List Task)) (s0 : AppSettings),
          (∀ b ∈ batches, b ≠ []) → batches ≠ [] →
          s0.oldestTaskCreatedAt = none →
          ∃ m, (batches.foldl updateDateRangeSettings s0).oldestTaskCreatedAt = some m
            ∧ m ∈ (batches.flatten).map Task.createdAt
            ∧ ∀ c ∈ (batches.flatten).map Task.createdAt, m ≤ c) := by
  refine ⟨?_, ?_, ?_⟩
  · intro s fetched hne
    unfold updateDateRangeSettings
    rw [if_neg (by simpa [List.isEmpty_iff] using hne)]
    exact ⟨rfl, rfl⟩
  · intro batches s0 hne hbs hs0
    cases batches with
    | nil => exact absurd rfl hbs
    | cons b bs =>
      have hb : b ≠ [] := hne b (List.mem_cons_self _ _)
      have hstep : (updateDateRangeSettings s0 b).newestTaskCreatedAt
          = some (maxCreatedAt b) := by
        unfold updateDateRangeSettings
        rw [if_neg (by simpa [List.isEmpty_iff] using hb)]
        simp [optMax, hs0]
      obtain ⟨m, hm, hmem, hle, hbound⟩ :=
        foldNewest_step bs (updateDateRangeSettings s0 b) (maxCreatedAt b)
          (fun x hx => hne x (List.mem_cons_of_mem _ hx)) hstep
      obtain ⟨hmaxmem, hmaxbound⟩ := maxCreatedAt_spec b hb
      refine ⟨m, hm, ?_, ?_⟩
      · rw [List.flatten_cons, List.map_append]
        rcases hmem with h | h
        · exact List.mem_append_left _ (h ▸ hmaxmem)
        · exact List.mem_append_right _ h
      · intro c hc
        rw [List.flatten_cons, List.map_append] at hc
        rcases List.mem_append.mp hc with h | h
        · exact le_trans (hmaxbound c h) hle
        · exact hbound c h
  · intro batches s0 hne hbs hs0
    cases batches with
    | nil => exact absurd rfl hbs
    | cons b bs =>
      have hb : b ≠ [] := hne b (List.mem_cons_self _ _)
      have hstep : (updateDateRangeSettings s0 b).oldestTaskCreatedAt
          = some (minCreatedAt b) := by
        unfold updateDateRangeSettings
        rw [if_neg (by simpa [List.isEmpty_iff] using hb)]
        simp [optMin, hs0]
      obtain ⟨m, hm, hmem, hle, hbound⟩ :=
        foldOldest_step bs (updateDateRangeSettings s0 b) (minCreatedAt b)
          (fun x hx => hne x (List.mem_cons_of_mem _ hx)) hstep
      obtain ⟨hminmem, hminbound⟩ := minCreatedAt_spec b hb
      refine ⟨m, hm, ?_, ?_⟩
      · rw [List.flatten_cons, List.map_append]
        rcases hmem with h | h
        · exact List.mem_append_left _ (h ▸ hminmem)
        · exact List.mem_append_right _ h
      · intro c hc
        rw [List.flatten_cons, List.map_append] at hc
        rcases List.mem_append.mp hc with h | h
        · exact le_trans hle (hminbound c h)
        · exact hbound c h

/-- Settings with nothing configured (`{ backendType: null }` default). -/
def emptySettings : AppSettings :=
  { backendType := none
    notionApiKey := none
    notionDatabaseId := none
    googleTasksCredentials := none
    proxyServerUrl := none
    lastSyncAt := none
    lastSyncCursor := none
    newestTaskCreatedAt := none
    oldestTaskCreatedAt := none }

/-- Batch item created at 5. -/
def c8TaskA : Task := { baseTask with id := "a", sourceId := "a", createdAt := 5 }

/-- Batch item created at 9. -/
def c8TaskB : Task := { baseTask with id := "b", sourceId := "b", createdAt := 9 }

/-- Two sequential one-item batches for the C8 witness. -/
def c8Batches : List (List Task) := [[c8TaskA], [c8TaskB]]

/-- Concrete instantiation of `claim_c8_date_range_monotonicity`. -/
theorem claim_c8_witness :
    (([c8TaskA] : List Task) ≠ []
        ∧ (∀ b ∈ c8Batches, b ≠ []) ∧ c8Batches ≠ []
        ∧ emptySettings.newestTaskCreatedAt = none
        ∧ emptySettings.oldestTaskCreatedAt = none)
      ∧ ((updateDateRangeSettings emptySettings [c8TaskA]).newestTaskCreatedAt
            = some (optMax emptySettings.newestTaskCreatedAt (maxCreatedAt [c8TaskA]))
          ∧ (updateDateRangeSettings emptySettings [c8TaskA]).oldestTaskCreatedAt
            = some (optMin emptySettings.oldestTaskCreatedAt (minCreatedAt [c8TaskA])))
      ∧ (∃ m, (c8Batches.foldl updateDateRangeSettings emptySettings).newestTaskCreatedAt
              = some m
            ∧ m ∈ (c8Batches.flatten).map Task.createdAt
            ∧ ∀ c ∈ (c8Batches.flatten).map Task.createdAt, c ≤ m)
      ∧ (∃ m, (c8Batches.foldl updateDateRangeSettings emptySettings).oldestTaskCreatedAt
              = some m
            ∧ m ∈ (c8Batches.flatten).map Task.createdAt
            ∧ ∀ c ∈ (c8Batches.flatten).map Task.createdAt, m ≤ c) :=
  ⟨⟨by decide, by decide, by decide, by decide, by decide⟩,
   claim_c8_date_range_monotonicity.1 emptySettings [c8TaskA] (by decide),
   claim_c8_date_range_monotonicity.2.1 c8Batches emptySettings
     (by decide) (by decide) (by decide),
   claim_c8_date_range_monotonicity.2.2 c8Batches emptySettings
     (by decide) (by decide) (by decide)⟩

/-! ## Claim C9 -/

/-- Whether the search stage keeps `t`: a blank query keeps everything,
otherwise the case-insensitive substring match must hit. -/
def searchKeeps (searchQuery : String) (t : Task) : Bool :=
  if hasSearchText searchQuery then matchesSearch (lowerStr searchQuery) t else true

/-- Whether the status-filter stage keeps `t`. -/
def statusKeeps (filter : FilterType) (t : Task) : Bool :=
  match filter with
  | FilterType.read => t.read
  | FilterType.unread => !t.read
  | FilterType.stocked => t.stocked
  | FilterType.all => true

theorem mem_applyStatusFilter (filter : FilterType) (l : List Task) (t : Task) :
    t ∈ applyStatusFilter filter l ↔ t ∈ l ∧ statusKeeps filter t = true := by
  cases filter <;> simp [applyStatusFilter, statusKeeps, List.mem_filter]

/-- The first of the two example tasks of the claim. -/
def buyMilk : Task :=
  { baseTask with id := "b1", sourceId := "b1", title := "Buy milk", createdAt := 2 }

/-- The second example task: already read. -/
def callMom : Task :=
  { baseTask with id := "c1", sourceId := "c1", title := "Call mom", createdAt := 1, read := true }

/-- C9: the filter/search projection keeps exactly the first-occurrence-
per-id tasks that pass the (blank-tolerant, case-insensitive substring)
search and the status filter, sorted by descending `createdAt`; on
`[Buy milk (unread), Call mom (read)]`, filter `unread` + search `"buy"`
yields exactly `[Buy milk]` and filter `read` + no search exactly
`[Call mom]`. -/
theorem claim_c9_filter_projection :
    (∀ (ts : List Task) (q : String) (f : FilterType) (t : Task),
        t ∈ filteredTasks ts q f
          ↔ t ∈ removeDuplicateTasks ts ∧ searchKeeps q t = true
              ∧ statusKeeps f t = true)
      ∧ (∀ (ts : List Task) (q : String) (f : FilterType),
          (filteredTasks ts q f).Pairwise (fun a b => b.createdAt ≤ a.createdAt))
      ∧ filteredTasks [buyMilk, callMom] "buy" FilterType.unread = [buyMilk]
      ∧ filteredTasks [buyMilk, callMom] "" FilterType.read = [callMom] := by
  refine ⟨?_, ?_, by decide, by decide⟩
  · intro ts q f t
    unfold filteredTasks sortByCreatedAtDesc
    rw [List.mem_insertionSort, mem_applyStatusFilter]
    unfold searchKeeps
    by_cases hq : hasSearchText q
    · simp [hq, List.mem_filter, and_assoc]
    · simp [hq]
  · intro ts q f
    exact List.sorted_insertionSort recencyOrder _

/-! ## Claim C10 -/

/-- C10: `NotionAPIClient.fetchTasks` never throws — every error raised
inside its body (the `'Notion API error: <status>'` it throws itself on a
non-OK response such as 401 or 404, and rejected `fetch` calls) is caught
and converted to `{tasks: [], hasMore: false}`, making a failed page fetch
indistinguishable at the caller from an OK response with zero results. -/
theorem claim_c10_notion_fetch_never_throws :
    (∀ (o : NotionFetchOutcome) (e : String),
        notionFetchTasksBody o = Except.error e →
          notionFetchTasks o = { tasks := [], hasMore := false, nextCursor := none })
      ∧ (∀ status : Nat,
          notionFetchTasksBody (NotionFetchOutcome.httpError status)
            = Except.error ("Notion API error: " ++ toString status))
      ∧ (∀ msg : String,
          notionFetchTasks (NotionFetchOutcome.networkError msg)
            = { tasks := [], hasMore := false, nextCursor := none })
      ∧ notionFetchTasks (NotionFetchOutcome.httpError 401)
          = notionFetchTasks (NotionFetchOutcome.ok [] false none)
      ∧ notionFetchTasks (NotionFetchOutcome.httpError 404)
          = { tasks := [], hasMore := false, nextCursor := none } := by
  refine ⟨?_, fun _ => rfl, fun _ => rfl, rfl, rfl⟩
  intro o e h
  unfold notionFetchTasks
  rw [h]

/-- Concrete instantiation of `claim_c10_notion_fetch_never_throws` at a
401 response. -/
theorem claim_c10_witness :
    notionFetchTasksBody (NotionFetchOutcome.httpError 401)
        = Except.error "Notion API error: 401"
      ∧ notionFetchTasks (NotionFetchOutcome.httpError 401)
          = { tasks := [], hasMore := false, nextCursor := none } :=
  ⟨rfl, claim_c10_notion_fetch_never_throws.1 (NotionFetchOutcome.httpError 401)
    "Notion API error: 401" rfl⟩

end TaskCache
